import Mathlib

/-!
Verification of the moto scaffolder (`scaffold.py`): a shallow embedding of
its naming normalizer, function-body generators, template tree builder, loop
annotator and source splicer, together with theorems settling the frozen
claims about them.

Strings are modelled as Lean `String` (a wrapper around `List Char`); the
Python string operations used by the scaffolder (`str.lower`, `str.upper`,
`str.title`, `str.split`, `str.splitlines`, `str.replace`, `in`,
`list.insert` and the two `re.sub` calls of `to_snake_case`) are embedded as
executable functions below, restricted to ASCII case mapping, which is all
the scaffolder's identifier material exercises.
-/

set_option maxRecDepth 20000
set_option maxHeartbeats 1000000

/-- ASCII uppercase letter test, the `[A-Z]` character class of the Python
regexes in `to_snake_case`. -/
def isUpperCh (c : Char) : Bool := 65 ≤ c.toNat && c.toNat ≤ 90

/-- ASCII lowercase letter test, the `[a-z]` character class. -/
def isLowerCh (c : Char) : Bool := 97 ≤ c.toNat && c.toNat ≤ 122

/-- ASCII digit test, the `[0-9]` part of the `[a-z0-9]` character class. -/
def isDigitCh (c : Char) : Bool := 48 ≤ c.toNat && c.toNat ≤ 57

/-- Model of Python `str.lower` on one character, restricted to ASCII: maps
`A`-`Z` (codepoints 65-90) to the codepoint 32 higher, like CPython does for
ASCII input. -/
def pyLowerChar (c : Char) : Char :=
  if 65 ≤ c.toNat ∧ c.toNat ≤ 90 then Char.ofNat (c.toNat + 32) else c

/-- Model of Python `str.upper` on one character, restricted to ASCII. -/
def pyUpperChar (c : Char) : Char :=
  if 97 ≤ c.toNat ∧ c.toNat ≤ 122 then Char.ofNat (c.toNat - 32) else c

/-- Model of Python `str.lower`, restricted to ASCII case mapping. -/
def pyLower (s : String) : String := ⟨s.data.map pyLowerChar⟩

/-- Model of Python `str.upper`, restricted to ASCII case mapping. -/
def pyUpper (s : String) : String := ⟨s.data.map pyUpperChar⟩

/-- Model of Python `str.title` on a character list: a cased (here: ASCII
letter) character is uppercased when the previous character is not cased and
lowercased otherwise; uncased characters pass through and reset the state.
The boolean argument records whether the previous character was cased. -/
def pyTitleGo : List Char → Bool → List Char
  | [], _ => []
  | c :: rest, prevCased =>
    let cased := isUpperCh c || isLowerCh c
    let c2 := if cased then (if prevCased then pyLowerChar c else pyUpperChar c) else c
    c2 :: pyTitleGo rest cased

/-- Model of Python `str.title` (ASCII), as used on each part in
`to_upper_camel_case`. -/
def pyTitle (l : List Char) : List Char := pyTitleGo l false

/-- Model of Python `str.split(sep)` for a one-character separator on a
character list: splits at every occurrence of the separator, keeping empty
parts, so a list with `k` separators yields `k + 1` parts. -/
def pySplitChars (sep : Char) : List Char → List (List Char)
  | [] => [[]]
  | c :: rest =>
    if c = sep then [] :: pySplitChars sep rest
    else
      match pySplitChars sep rest with
      | [] => [[c]]
      | h :: t => (c :: h) :: t

/-- Model of Python `str.splitlines` for newline-separated text: like
splitting on a newline character, except that a trailing newline does not
produce a final empty part and the empty string yields no parts. -/
def pySplitlines (s : String) : List String :=
  match s.data with
  | [] => []
  | cs =>
    let parts := pySplitChars '\n' cs
    let parts2 := if parts.getLast? = some [] then parts.dropLast else parts
    parts2.map String.mk

/-- Model of the Python substring test `needle in haystack` on character
lists; the empty needle is contained in everything, as in Python. -/
def charsContain (h n : List Char) : Bool :=
  if n.isPrefixOf h then true
  else
    match h with
    | [] => false
    | _ :: t => charsContain t n

/-- Model of the Python substring test `sub in s` on strings. -/
def strContains (s sub : String) : Bool := charsContain s.data sub.data

/-- Model of Python `list.insert(i, a)`: inserts before position `i`,
clamping to the end when `i` exceeds the length. -/
def listInsert {α : Type} (l : List α) (i : Nat) (a : α) : List α :=
  l.take i ++ a :: l.drop i

/-- Fuel-indexed worker for the model of Python `s.replace(pat, rep)`:
replaces every non-overlapping occurrence of `pat`, scanning left to
right.  The fuel argument only makes the recursion structural (hence
kernel-reducible); it is initialized to the list length, which the
consumption of at least one character per step never exhausts. -/
def replaceCharsF (pat rep : List Char) : Nat → List Char → List Char
  | _, [] => []
  | 0, l => l
  | fuel + 1, c :: rest =>
    if pat ≠ [] ∧ pat.isPrefixOf (c :: rest) then
      rep ++ replaceCharsF pat rep fuel ((c :: rest).drop pat.length)
    else
      c :: replaceCharsF pat rep fuel rest

/-- Model of Python `s.replace(pat, rep)` on character lists.  The
scaffolder only uses it with the nonempty pattern `Result`; an empty
pattern is treated as matching nowhere. -/
def replaceChars (pat rep l : List Char) : List Char :=
  replaceCharsF pat rep l.length l

/-- Model of Python `s.replace(pat, rep)` on strings. -/
def pyReplace (s pat rep : String) : String :=
  ⟨replaceChars pat.data rep.data s.data⟩

theorem length_dropWhile_le {α : Type} (p : α → Bool) (l : List α) :
    (l.dropWhile p).length ≤ l.length := by
  induction l with
  | nil => simp [List.dropWhile]
  | cons c t ih =>
    by_cases h : p c
    · simp [List.dropWhile, h]
      omega
    · simp [List.dropWhile, h]

/-- Whether the first regex of `to_snake_case` matches at the current
position: the next character is `[A-Z]` and the one after it starts a
nonempty `[a-z]+` run. -/
def sub1MatchHere (c2 : Char) (rest : List Char) : Bool :=
  isUpperCh c2 && (match rest with | r :: _ => isLowerCh r | [] => false)

/-- Fuel-indexed worker for the model of the first substitution of
`to_snake_case`, Python `re.sub('(.)([A-Z][a-z]+)', r'\1_\2', s)`:
scanning left to right, a match is any character followed by an uppercase
letter followed by a maximal nonempty run of lowercase letters; an
underscore is inserted after the first character and scanning resumes
after the match.  The fuel argument only makes the recursion structural
(hence kernel-reducible); it is initialized to the list length, which the
scan never exhausts. -/
def snakeSub1F : Nat → List Char → List Char
  | _, [] => []
  | _, [c] => [c]
  | 0, l => l
  | fuel + 1, c1 :: c2 :: rest =>
    if sub1MatchHere c2 rest then
      c1 :: '_' :: c2 :: rest.takeWhile isLowerCh ++
        snakeSub1F fuel (rest.dropWhile isLowerCh)
    else
      c1 :: snakeSub1F fuel (c2 :: rest)

/-- The first substitution of `to_snake_case` on a character list. -/
def snakeSub1 (l : List Char) : List Char := snakeSub1F l.length l

/-- Fuel-indexed worker for the model of the second substitution of
`to_snake_case`, Python `re.sub('([a-z0-9])([A-Z])', r'\1_\2', s)`:
scanning left to right, a match is a lowercase letter or digit directly
followed by an uppercase letter; an underscore is inserted between them
and scanning resumes after the uppercase letter.  The fuel argument only
makes the recursion structural (hence kernel-reducible); it is
initialized to the list length, which the scan never exhausts. -/
def snakeSub2F : Nat → List Char → List Char
  | _, [] => []
  | _, [c] => [c]
  | 0, l => l
  | fuel + 1, c1 :: c2 :: rest =>
    if (isLowerCh c1 || isDigitCh c1) && isUpperCh c2 then
      c1 :: '_' :: c2 :: snakeSub2F fuel rest
    else
      c1 :: snakeSub2F fuel (c2 :: rest)

/-- The second substitution of `to_snake_case` on a character list. -/
def snakeSub2 (l : List Char) : List Char := snakeSub2F l.length l

/-- Embedding of `to_snake_case` (scaffold.py lines 144-146): the two
regex substitutions followed by `str.lower`. -/
def to_snake_case (s : String) : String :=
  ⟨(snakeSub2 (snakeSub1 s.data)).map pyLowerChar⟩

/-- Embedding of `to_upper_camel_case` (scaffold.py lines 141-142):
split on underscores, title-case each part, concatenate. -/
def to_upper_camel_case (s : String) : String :=
  ⟨((pySplitChars '_' s.data).map pyTitle).flatten⟩

/-- Case-insensitive (ASCII) suffix test on character lists: true when `s`
ends with `suf` up to ASCII case. -/
def ciEndsWith (s suf : List Char) : Bool :=
  List.isSuffixOf (suf.map pyLowerChar) (s.map pyLowerChar)

/-- Model of the external library function `inflection.singularize`,
restricted to the ordered suffix rules that can fire on the plain ASCII
identifier words the scaffolder passes to it (no uncountable, irregular or
dictionary-specific plural forms).  The library tries its rules in priority
order and rewrites the first matching suffix, matching case-insensitively;
a word matching no rule is returned unchanged. -/
def singularize (s : String) : String :=
  let cs := s.data
  let stem (k : Nat) : List Char := cs.take (cs.length - k)
  if ciEndsWith cs ['o','e','s'] then ⟨stem 2⟩                -- (o)es$    -> \1
  else if ciEndsWith cs ['x','e','s'] then ⟨stem 2⟩           -- (x)es$    -> \1
  else if ciEndsWith cs ['c','h','e','s'] then ⟨stem 2⟩       -- (ch)es$   -> \1
  else if ciEndsWith cs ['s','s','e','s'] then ⟨stem 2⟩       -- (ss)es$   -> \1
  else if ciEndsWith cs ['s','h','e','s'] then ⟨stem 2⟩       -- (sh)es$   -> \1
  else if ciEndsWith cs ['i','e','s'] &&
          (match cs.reverse.drop 3 with
           | c :: _ => !(c ∈ ['a','e','i','o','u','y','A','E','I','O','U','Y'])
           | [] => false) then ⟨stem 3 ++ ['y']⟩              -- ([^aeiouy])ies$ -> \1y
  else if ciEndsWith cs ['s','s'] then s                      -- (ss)$     -> \1
  else if ciEndsWith cs ['s'] then ⟨stem 1⟩                   -- s$        -> (empty)
  else s

/-- The fixed input exclusion list (scaffold.py line 29). -/
def INPUT_IGNORED_IN_BACKEND : List String := ["Marker", "PageSize"]

/-- The fixed output exclusion list (scaffold.py line 30). -/
def OUTPUT_IGNORED_IN_BACKEND : List String := ["NextMarker"]

/-- The botocore shape tree, as the scaffolder sees it.  Each constructor
records the Python class of the shape object (`StringShape`, generic
`Shape`, `ListShape`, `StructureShape`, `MapShape`), which is what
`_get_subtree` dispatches on; the generic scalar constructor carries the
shape's `type_name` string (for example `integer` or `boolean`), which is
what `get_function_in_responses` dispatches on.  A structure carries its
`members` mapping as an insertion-ordered association list, and a list
carries its `member` element shape. -/
inductive PyShape where
  | stringShape : PyShape
  | scalarShape (tname : String) : PyShape
  | listShape (member : PyShape) : PyShape
  | structureShape (members : List (String × PyShape)) : PyShape
  | mapShape (key value : PyShape) : PyShape

/-- The Python `type(shape).__name__` seen by `_get_subtree`. -/
def PyShape.className : PyShape → String
  | .stringShape => "StringShape"
  | .scalarShape _ => "Shape"
  | .listShape _ => "ListShape"
  | .structureShape _ => "StructureShape"
  | .mapShape _ _ => "MapShape"

/-- The botocore `shape.type_name` seen by `get_function_in_responses`. -/
def PyShape.typeName : PyShape → String
  | .stringShape => "string"
  | .scalarShape t => t
  | .listShape _ => "list"
  | .structureShape _ => "structure"
  | .mapShape _ _ => "map"

/-- Errors raised by the scaffolder: `ValueError` (unsupported shape),
`AttributeError` (a list whose member shape has no `members` mapping) and
plain `Exception` (tag lookup and class lookup failures). -/
inductive PyError where
  | valueError (msg : String) : PyError
  | attributeError (msg : String) : PyError
  | exception (msg : String) : PyError
deriving DecidableEq

/-- The per-input-field extraction statement of `get_function_in_responses`
(scaffold.py lines 164-172): the template is selected on the shape's
`type_name` (`integer`, `list`, anything else) and formatted with the
snake-cased name and the wire name. -/
def extractionLine (p : String × PyShape) : String :=
  if p.2.typeName = "integer" then
    "    " ++ to_snake_case p.1 ++ " = _get_int_param(\"" ++ p.1 ++ "\")\n"
  else if p.2.typeName = "list" then
    "    " ++ to_snake_case p.1 ++ " = self._get_list_prefix(\"" ++ p.1 ++ ".member\")\n"
  else
    "    " ++ to_snake_case p.1 ++ " = self._get_param(\"" ++ p.1 ++ "\")\n"

/-- The snake-cased input names of an operation, with the fixed exclusion
list applied (scaffold.py line 160). -/
def inputNames (inputs : List (String × PyShape)) : List String :=
  ((inputs.map Prod.fst).filter (fun n => !INPUT_IGNORED_IN_BACKEND.contains n)).map to_snake_case

/-- The snake-cased output names of an operation, with the fixed exclusion
list applied (scaffold.py line 161). -/
def outputNames (outputs : List (String × PyShape)) : List String :=
  ((outputs.map Prod.fst).filter (fun n => !OUTPUT_IGNORED_IN_BACKEND.contains n)).map to_snake_case

/-- Embedding of `get_function_in_responses` (scaffold.py lines 149-189).
The botocore lookup (`boto3.client`, `operation_model`) is abstracted
away: the operation's input and output member mappings are passed in as
insertion-ordered association lists, exactly the data the Python code
reads off the operation model. -/
def get_function_in_responses (service operation protocol : String)
    (inputs outputs : List (String × PyShape)) : String :=
  let input_names := inputNames inputs
  let output_names := outputNames outputs
  let body := "def " ++ operation ++ "(self):\n"
  let body := inputs.foldl (fun b p => b ++ extractionLine p) body
  let body := body ++
    (if output_names ≠ [] then
      "    " ++ String.intercalate "," output_names ++ " = self." ++ service ++
        "_backend." ++ operation ++ "(\n"
    else
      "    self." ++ service ++ "_backend." ++ operation ++ "(\n")
  let body := input_names.foldl (fun b n => b ++ ("        " ++ n ++ "=" ++ n ++ ",\n")) body
  let body := body ++ "    )\n"
  if protocol = "query" then
    body ++ "    template = self.response_template(" ++ pyUpper operation ++ "_TEMPLATE)\n" ++
      "    return template.render(" ++
      String.intercalate "," (output_names.map (fun n => n ++ "=" ++ n)) ++ ")\n"
  else if protocol = "json" then
    body ++ "    # TODO: adjust reponse\n" ++
      "    return json.dumps(" ++
      String.intercalate "," (output_names.map (fun n => n ++ "=" ++ n)) ++ ")\n"
  else
    body

/-- Embedding of `get_function_in_models` (scaffold.py lines 192-211).
When every input field is excluded the Python source assigns the literal
string `def {}(self)\n` (line 207) without formatting it, so that literal
(with unfilled placeholder braces and no trailing colon) is reproduced
here. -/
def get_function_in_models (service operation : String)
    (inputs outputs : List (String × PyShape)) : String :=
  let input_names := inputNames inputs
  let output_names := outputNames outputs
  let body :=
    if input_names ≠ [] then
      "def " ++ operation ++ "(self, " ++ String.intercalate ", " input_names ++ "):\n"
    else
      "def \x7b\x7d(self)\n"
  body ++ "    # implement here\n" ++ "    return " ++
    String.intercalate ", " output_names ++ "\n"

/-- An lxml `etree.Element` as the scaffolder builds it: a tag, optional
text, attributes (only the root's `xmlns`) and ordered children. -/
inductive Elem where
  | mk (tag : String) (text : Option String) (attrs : List (String × String))
       (children : List Elem) : Elem

/-- A Replace List entry: the list field's wire name together with the
Name Context current when the entry was recorded. -/
abbrev RLEntry := String × List String

/-- The placeholder text of a scalar leaf (scaffold.py lines 218-221):
qualified by the innermost Name Context entry when the context is
nonempty, unqualified otherwise. -/
def leafText (name : String) (nameCtx : List String) : String :=
  match nameCtx.getLast? with
  | some p => "\x7b\x7b " ++ p ++ "." ++ to_snake_case name ++ " \x7d\x7d"
  | none => "\x7b\x7b " ++ to_snake_case name ++ " \x7d\x7d"

mutual

/-- Embedding of `_get_subtree` (scaffold.py lines 214-231).  The Python
function mutates `replace_list` in place and returns an element or raises;
here the replace list is threaded explicitly and returned in both the
success and the error case, since in Python appends performed before an
exception persist.  Dispatch is on the shape's Python class name: string
and generic scalar shapes give a placeholder leaf, a list shape records a
Replace List entry and recurses into its member structure's fields with the
singularized lowercased field name pushed onto the Name Context, a list
whose member has no `members` mapping raises `AttributeError`, and every
other class raises `ValueError('Not supported Shape')`. -/
def _get_subtree (name : String) (shape : PyShape) (replace_list : List RLEntry)
    (nameCtx : List String) : List RLEntry × Except PyError Elem :=
  match shape with
  | .stringShape =>
    (replace_list, .ok (.mk name (some (leafText name nameCtx)) [] []))
  | .scalarShape _ =>
    (replace_list, .ok (.mk name (some (leafText name nameCtx)) [] []))
  | .listShape (.structureShape ms) =>
    let rl1 := replace_list ++ [(name, nameCtx)]
    match _get_subtree_fields ms rl1 (nameCtx ++ [singularize (pyLower name)]) with
    | (rl2, .ok children) =>
      (rl2, .ok (.mk name none [] [.mk "member" none [] children]))
    | (rl2, .error e) => (rl2, .error e)
  | .listShape _ =>
    (replace_list ++ [(name, nameCtx)],
     .error (.attributeError "object has no attribute members"))
  | _ => (replace_list, .error (.valueError "Not supported Shape"))

/-- The recursion of `_get_subtree` over the fields of a list's member
structure (the loop at scaffold.py lines 228-229), threading the replace
list left to right and stopping at the first error, as the raising Python
loop does. -/
def _get_subtree_fields (ms : List (String × PyShape)) (replace_list : List RLEntry)
    (nameCtx : List String) : List RLEntry × Except PyError (List Elem) :=
  match ms with
  | [] => (replace_list, .ok [])
  | (n, s) :: rest =>
    match _get_subtree n s replace_list nameCtx with
    | (rl1, .ok e) =>
      match _get_subtree_fields rest rl1 nameCtx with
      | (rl2, .ok es) => (rl2, .ok (e :: es))
      | (rl2, .error err) => (rl2, .error err)
    | (rl1, .error err) => (rl1, .error err)

end

mutual

/-- Model of `lxml.etree.tostring(..., pretty_print=True)` split into lines,
for the element shapes the scaffolder builds (no mixed text-and-children
content): two-space indentation per nesting level, a childless element with
text on one line, a childless textless element self-closed, and an element
with children spread over an opening line, its children's lines, and a
closing line.  Attributes are rendered inside the opening tag in order. -/
def serializeElem (ind : Nat) (e : Elem) : List String :=
  match e with
  | .mk tag txt attrs children =>
    let pad : String := ⟨List.replicate (2 * ind) ' '⟩
    let attrStr := String.join (attrs.map (fun p => " " ++ p.1 ++ "=\"" ++ p.2 ++ "\""))
    match children, txt with
    | [], none => [pad ++ "<" ++ tag ++ attrStr ++ "/>"]
    | [], some t => [pad ++ "<" ++ tag ++ attrStr ++ ">" ++ t ++ "</" ++ tag ++ ">"]
    | cs, _ =>
      (pad ++ "<" ++ tag ++ attrStr ++ ">") :: serializeElems (ind + 1) cs ++
        [pad ++ "</" ++ tag ++ ">"]

/-- Serialization of a list of sibling elements at one indentation level. -/
def serializeElems (ind : Nat) : List Elem → List String
  | [] => []
  | e :: rest => serializeElem ind e ++ serializeElems ind rest

end

/-- The iteration source the loop annotator computes for a Replace List
entry (scaffold.py line 274): the innermost Name Context entry, a dot and
the lowercased field name when the context is nonempty, otherwise just the
lowercased field name. -/
def iterNameOf (entry : RLEntry) : String :=
  match entry.2.getLast? with
  | some p => p ++ "." ++ pyLower entry.1
  | none => pyLower entry.1

/-- One iteration of the loop-annotation pass of
`get_response_query_template` (scaffold.py lines 268-289) on the current
line list: find the unique line containing `<Name>` (error otherwise),
insert the loop-open directive right after it, then find the unique line
containing `</Name>` in the already-extended list (error otherwise) and
insert the loop-close directive right before it. -/
def annotateStep (lines : List String) (entry : RLEntry) :
    Except PyError (List String) :=
  let name := entry.1
  let singular_name := singularize name
  let start_tag := "<" ++ name ++ ">"
  let iter_name := iterNameOf entry
  let loop_start := "\x7b% for " ++ pyLower singular_name ++ " in " ++ iter_name ++ " %\x7d"
  let end_tag := "</" ++ name ++ ">"
  let loop_end := "\x7b\x7b endfor \x7d\x7d"
  let start_tag_indexes := (lines.enum.filter (fun p => strContains p.2 start_tag)).map Prod.fst
  match start_tag_indexes with
  | [start_tag_index] =>
    let lines2 := listInsert lines (start_tag_index + 1) loop_start
    let end_tag_indexes := (lines2.enum.filter (fun p => strContains p.2 end_tag)).map Prod.fst
    match end_tag_indexes with
    | [end_tag_index] => .ok (listInsert lines2 end_tag_index loop_end)
    | _ => .error (.exception ("tag " ++ end_tag ++ " not found in response body"))
  | _ => .error (.exception ("tag " ++ start_tag ++ " not found in response body"))

/-- The whole loop-annotation pass: the Replace List entries applied in
discovery order, each against the line list as mutated by its
predecessors. -/
def annotateLoops (lines : List String) : List RLEntry → Except PyError (List String)
  | [] => .ok lines
  | entry :: rest =>
    match annotateStep lines entry with
    | .ok lines2 => annotateLoops lines2 rest
    | .error e => .error e

/-- Embedding of `get_response_query_template` (scaffold.py lines 234-292).
The botocore lookups are abstracted: the operation name, the output shape's
`resultWrapper` serialization name, the service metadata's XML namespace and
the output member mapping are passed in directly.  Builds the envelope
(response wrapper with namespace, `ResponseMetadata` with the fixed example
request id, result wrapper with the subtrees), serializes it, runs the
loop-annotation pass, and wraps the text as a module-level template
constant. -/
def get_response_query_template (operation result_wrapper xml_namespace : String)
    (outputs : List (String × PyShape)) : Except PyError String :=
  let response_wrapper := pyReplace result_wrapper "Result" "Response"
  match _get_subtree_fields outputs [] [] with
  | (_, .error e) => .error e
  | (replace_list, .ok children) =>
    let t_metadata : Elem :=
      .mk "ResponseMetadata" none []
        [.mk "RequestId" (some "1549581b-12b7-11e3-895e-1334aEXAMPLE") [] []]
    let t_result : Elem := .mk result_wrapper none [] children
    let t_root : Elem := .mk response_wrapper none [("xmlns", xml_namespace)]
      [t_metadata, t_result]
    let xml_body_lines := serializeElem 0 t_root
    match annotateLoops xml_body_lines replace_list with
    | .error e => .error e
    | .ok lines2 =>
      .ok ("\n" ++ pyUpper operation ++ "_TEMPLATE = \"\"\"" ++
        String.intercalate "\n" lines2 ++ "\"\"\"")

/-- What the splicer learns about one class of the loaded artifact module
through `inspect`: whether `issubclass(cls, base_class)` holds, whether the
class is the marker base class itself, and the result of
`inspect.getsourcelines(cls)` — the one-based number of its first source
line and how many source lines its block spans. -/
structure ClassInfo where
  subclassOfBase : Bool
  isBase : Bool
  lineNo : Nat
  numLines : Nat

/-- A class qualifies as the splice target when it specializes the marker
base type and is not the base type itself (the filter at scaffold.py
line 301). -/
def qualifies (c : ClassInfo) : Bool := c.subclassOfBase && !c.isBase

/-- Embedding of `insert_code_to_class` (scaffold.py lines 295-313).  The
artifact is modelled by its current text as a list of newline-stripped
lines (what the Python code builds from `readlines`) plus the class
metadata the module-import-and-inspect steps produce.  On success the new
file content (the line list later joined with newlines and written back)
is returned; when the number of qualifying classes is not one, the
function fails before anything is written, so the error carries no
content. -/
def insert_code_to_class (lines : List String) (classes : List ClassInfo)
    (new_code : String) : Except PyError (List String) :=
  let _response_cls := classes.filter qualifies
  match _response_cls with
  | [response_cls] =>
    let end_line_no := response_cls.lineNo + response_cls.numLines
    let func_lines := (pySplitlines new_code).map (fun l => "    " ++ l)
    .ok (lines.take end_line_no ++ func_lines ++ lines.drop end_line_no)
  | _ => .error (.exception "unknown error, number of clsmembers is not 1")

/-- The number of lines of `lines` that contain `tag` as a substring, the
quantity whose being one the loop annotator insists on. -/
def countContaining (lines : List String) (tag : String) : Nat :=
  (lines.filter (fun l => strContains l tag)).length

/-- Claim C1.  For every output shape consisting of a single top-level list
field `Items` whose member structure has the single scalar field `Name`
(either a `StringShape` or a generic scalar `Shape`), the template tree
builder produces the Replace List `[("Items", [])]`, the serialized markup
has exactly one line containing `<Items>` and one containing `</Items>`,
and the loop-annotation pass inserts the loop-open directive
`for item in items` on the line immediately after the `<Items>` line and
the loop-close directive on the line immediately before the `</Items>`
line, as the final generated template text shows. -/
theorem C1_loop_directive_placement (s : PyShape)
    (h : s = .stringShape ∨ ∃ t, s = .scalarShape t) :
    (_get_subtree_fields [("Items", PyShape.listShape (.structureShape [("Name", s)]))] [] []).1
      = [("Items", [])] ∧
    countContaining
      ["<FooResponse xmlns=\"uri\">", "  <ResponseMetadata>",
       "    <RequestId>1549581b-12b7-11e3-895e-1334aEXAMPLE</RequestId>",
       "  </ResponseMetadata>", "  <FooResult>", "    <Items>", "      <member>",
       "        <Name>\x7b\x7b item.name \x7d\x7d</Name>", "      </member>",
       "    </Items>", "  </FooResult>", "</FooResponse>"] "<Items>" = 1 ∧
    countContaining
      ["<FooResponse xmlns=\"uri\">", "  <ResponseMetadata>",
       "    <RequestId>1549581b-12b7-11e3-895e-1334aEXAMPLE</RequestId>",
       "  </ResponseMetadata>", "  <FooResult>", "    <Items>", "      <member>",
       "        <Name>\x7b\x7b item.name \x7d\x7d</Name>", "      </member>",
       "    </Items>", "  </FooResult>", "</FooResponse>"] "</Items>" = 1 ∧
    annotateLoops
      ["<FooResponse xmlns=\"uri\">", "  <ResponseMetadata>",
       "    <RequestId>1549581b-12b7-11e3-895e-1334aEXAMPLE</RequestId>",
       "  </ResponseMetadata>", "  <FooResult>", "    <Items>", "      <member>",
       "        <Name>\x7b\x7b item.name \x7d\x7d</Name>", "      </member>",
       "    </Items>", "  </FooResult>", "</FooResponse>"]
      [("Items", [])] =
      .ok
      ["<FooResponse xmlns=\"uri\">", "  <ResponseMetadata>",
       "    <RequestId>1549581b-12b7-11e3-895e-1334aEXAMPLE</RequestId>",
       "  </ResponseMetadata>", "  <FooResult>", "    <Items>",
       "\x7b% for item in items %\x7d", "      <member>",
       "        <Name>\x7b\x7b item.name \x7d\x7d</Name>", "      </member>",
       "\x7b\x7b endfor \x7d\x7d", "    </Items>", "  </FooResult>", "</FooResponse>"] ∧
    get_response_query_template "foo_op" "FooResult" "uri"
      [("Items", PyShape.listShape (.structureShape [("Name", s)]))] =
      .ok ("\nFOO_OP_TEMPLATE = \"\"\"<FooResponse xmlns=\"uri\">\n  <ResponseMetadata>\n    <RequestId>1549581b-12b7-11e3-895e-1334aEXAMPLE</RequestId>\n  </ResponseMetadata>\n  <FooResult>\n    <Items>\n\x7b% for item in items %\x7d\n      <member>\n        <Name>\x7b\x7b item.name \x7d\x7d</Name>\n      </member>\n\x7b\x7b endfor \x7d\x7d\n    </Items>\n  </FooResult>\n</FooResponse>\"\"\"") := by
  rcases h with h | ⟨t, h⟩ <;> subst h <;>
    exact ⟨rfl, rfl, rfl, rfl, rfl⟩

/-- Witness for claim C1: the theorem applied at the concrete scalar shape
`StringShape`, first conjunct. -/
theorem C1_loop_directive_placement_witness :
    (_get_subtree_fields
      [("Items", PyShape.listShape (.structureShape [("Name", PyShape.stringShape)]))] [] []).1
      = [("Items", [])] :=
  (C1_loop_directive_placement PyShape.stringShape (Or.inl rfl)).1

/-- Counterexample to claim C4.  For the end-to-end query-style case with
input fields `Name` (scalar) and `Count` (integer) and output field
`Items` (list of structures with scalar `Id`), the generated template text
does not contain a `for id in items` loop-open directive and does not
contain an `id.id` placeholder: the loop variable is the singularized
lowercased field name `item` (so the directive reads `for item in items`
and the placeholder reads `item.id`), and the loop-open directive is
inserted after the `<Items>` line, inside the element, not outside it. -/
theorem C4_counterexample :
    get_response_query_template "op" "OpResult" "uri"
      [("Items", PyShape.listShape (.structureShape [("Id", PyShape.stringShape)]))] =
      .ok "\nOP_TEMPLATE = \"\"\"<OpResponse xmlns=\"uri\">\n  <ResponseMetadata>\n    <RequestId>1549581b-12b7-11e3-895e-1334aEXAMPLE</RequestId>\n  </ResponseMetadata>\n  <OpResult>\n    <Items>\n\x7b% for item in items %\x7d\n      <member>\n        <Id>\x7b\x7b item.id \x7d\x7d</Id>\n      </member>\n\x7b\x7b endfor \x7d\x7d\n    </Items>\n  </OpResult>\n</OpResponse>\"\"\"" ∧
    strContains "\nOP_TEMPLATE = \"\"\"<OpResponse xmlns=\"uri\">\n  <ResponseMetadata>\n    <RequestId>1549581b-12b7-11e3-895e-1334aEXAMPLE</RequestId>\n  </ResponseMetadata>\n  <OpResult>\n    <Items>\n\x7b% for item in items %\x7d\n      <member>\n        <Id>\x7b\x7b item.id \x7d\x7d</Id>\n      </member>\n\x7b\x7b endfor \x7d\x7d\n    </Items>\n  </OpResult>\n</OpResponse>\"\"\"" "for id in items" = false ∧
    strContains "\nOP_TEMPLATE = \"\"\"<OpResponse xmlns=\"uri\">\n  <ResponseMetadata>\n    <RequestId>1549581b-12b7-11e3-895e-1334aEXAMPLE</RequestId>\n  </ResponseMetadata>\n  <OpResult>\n    <Items>\n\x7b% for item in items %\x7d\n      <member>\n        <Id>\x7b\x7b item.id \x7d\x7d</Id>\n      </member>\n\x7b\x7b endfor \x7d\x7d\n    </Items>\n  </OpResult>\n</OpResponse>\"\"\"" "\x7b\x7b id.id \x7d\x7d" = false ∧
    strContains "\nOP_TEMPLATE = \"\"\"<OpResponse xmlns=\"uri\">\n  <ResponseMetadata>\n    <RequestId>1549581b-12b7-11e3-895e-1334aEXAMPLE</RequestId>\n  </ResponseMetadata>\n  <OpResult>\n    <Items>\n\x7b% for item in items %\x7d\n      <member>\n        <Id>\x7b\x7b item.id \x7d\x7d</Id>\n      </member>\n\x7b\x7b endfor \x7d\x7d\n    </Items>\n  </OpResult>\n</OpResponse>\"\"\"" "for item in items" = true :=
  ⟨rfl, rfl, rfl, rfl⟩

/-- Claim C4 as amended.  For the end-to-end query-style case with input
fields `Name` (scalar) and `Count` (integer) and output field `Items`
(list of structures with scalar `Id`), the generated handler stub contains
the generic-accessor extraction for `name`, the integer-accessor
extraction for `count`, a single backend call assigned to `items` and a
template render call; and the generated template text contains exactly one
loop pair, reading `for item in items` (loop variable singularized from
the field name, not `id`) opened on the line after `<Items>` and closed
with the `endfor` directive on the line before `</Items>`, bracketing the
`<member><Id>` placeholder structure whose placeholder reads `item.id`. -/
theorem C4_end_to_end_amended :
    get_function_in_responses "svc" "op" "query"
      [("Name", PyShape.stringShape), ("Count", PyShape.scalarShape "integer")]
      [("Items", PyShape.listShape (.structureShape [("Id", PyShape.stringShape)]))] =
      "def op(self):\n    name = self._get_param(\"Name\")\n    count = _get_int_param(\"Count\")\n    items = self.svc_backend.op(\n        name=name,\n        count=count,\n    )\n    template = self.response_template(OP_TEMPLATE)\n    return template.render(items=items)\n" ∧
    get_response_query_template "op" "OpResult" "uri"
      [("Items", PyShape.listShape (.structureShape [("Id", PyShape.stringShape)]))] =
      .ok "\nOP_TEMPLATE = \"\"\"<OpResponse xmlns=\"uri\">\n  <ResponseMetadata>\n    <RequestId>1549581b-12b7-11e3-895e-1334aEXAMPLE</RequestId>\n  </ResponseMetadata>\n  <OpResult>\n    <Items>\n\x7b% for item in items %\x7d\n      <member>\n        <Id>\x7b\x7b item.id \x7d\x7d</Id>\n      </member>\n\x7b\x7b endfor \x7d\x7d\n    </Items>\n  </OpResult>\n</OpResponse>\"\"\"" :=
  ⟨rfl, rfl⟩

/-- Claim C7: evaluation of the code at the failing input.  For an
operation with no input fields at all (hence none outside the exclusion
list), `get_function_in_models` emits the literal, unformatted
`def {}(self)` line — the placeholder is never substituted with the
operation name and the colon is missing — instead of a signature named
after the operation, because scaffold.py line 207 assigns the format
string without calling `.format`. -/
theorem C7_empty_inputs_bug :
    get_function_in_models "svc" "op" [] [] =
      "def \x7b\x7d(self)\n    # implement here\n    return \n" ∧
    strContains (get_function_in_models "svc" "op" [] []) "def op" = false :=
  ⟨rfl, rfl⟩

/-- Counterexample to claim C2.  Artifact with four lines in which the
unique qualifying class `Foo` starts at one-based line 2 and spans 2
source lines (so its last line is line 3, the `pass` line), followed by a
trailing comment line; the second class-info entry is the imported marker
base type itself, which does not qualify.  The splicer inserts the
indented code after the trailing comment line (because it slices at
`line_no + len(code_lines)`, one line past the class end), not immediately
after the class's last line as the claim states. -/
theorem C2_counterexample :
    insert_code_to_class ["import x", "class Foo(Base):", "    pass", "# trailing"]
      [⟨true, true, 1, 1⟩, ⟨true, false, 2, 2⟩] "def f(self):\n    pass\n" =
      .ok ["import x", "class Foo(Base):", "    pass", "# trailing",
           "    def f(self):", "        pass"] ∧
    (["import x", "class Foo(Base):", "    pass", "# trailing",
      "    def f(self):", "        pass"] : List String) ≠
      ["import x", "class Foo(Base):", "    pass",
       "    def f(self):", "        pass", "# trailing"] :=
  ⟨rfl, by decide⟩

/-- Claim C2 as amended.  For every artifact in which exactly one class
qualifies (specializes the marker base type and is not the base type
itself), `insert_code_to_class` produces the original line sequence with
the new code text, each line indented by one nesting level (4 spaces),
inserted after the first `lineNo + numLines` lines — one line past the
class's last source line (the class occupies one-based lines `lineNo`
through `lineNo + numLines - 1`) — and every other line unchanged and in
its original order. -/
theorem C2_splice_position_amended (lines : List String) (classes : List ClassInfo)
    (new_code : String) (c : ClassInfo) (h : classes.filter qualifies = [c]) :
    insert_code_to_class lines classes new_code =
      .ok (lines.take (c.lineNo + c.numLines) ++
        (pySplitlines new_code).map (fun l => "    " ++ l) ++
        lines.drop (c.lineNo + c.numLines)) := by
  unfold insert_code_to_class
  rw [h]

/-- Witness for claim C2's amended theorem at a concrete artifact. -/
theorem C2_splice_position_amended_witness :
    insert_code_to_class ["a", "b"] [⟨true, false, 1, 1⟩] "x\n" =
      .ok (["a", "b"].take 2 ++ ["    x"] ++ ["a", "b"].drop 2) :=
  C2_splice_position_amended ["a", "b"] [⟨true, false, 1, 1⟩] "x\n" ⟨true, false, 1, 1⟩ rfl

/-- Claim C8.  For every artifact in which the number of qualifying
classes is not one (zero, or two or more), `insert_code_to_class` fails
with the Ambiguous-Target error before producing any new file content;
in this embedding the error value carries no line list, mirroring that
the Python function raises before its write call, leaving the file
unchanged. -/
theorem C8_ambiguous_target (lines : List String) (classes : List ClassInfo)
    (new_code : String) (h : (classes.filter qualifies).length ≠ 1) :
    insert_code_to_class lines classes new_code =
      .error (.exception "unknown error, number of clsmembers is not 1") := by
  unfold insert_code_to_class
  cases hc : classes.filter qualifies with
  | nil => rfl
  | cons a t =>
    cases t with
    | nil =>
      exfalso
      apply h
      rw [hc]
      rfl
    | cons b t2 => rfl

/-- Witness for claim C8 at a concrete artifact with zero qualifying
classes (only the base type itself is present). -/
theorem C8_ambiguous_target_witness :
    insert_code_to_class ["line"] [⟨true, true, 1, 1⟩] "code" =
      .error (.exception "unknown error, number of clsmembers is not 1") :=
  C8_ambiguous_target ["line"] [⟨true, true, 1, 1⟩] "code" (by decide)

theorem foldl_append_init (l : List String) (b : String) :
    l.foldl (fun r s => r ++ s) b = b ++ l.foldl (fun r s => r ++ s) "" := by
  induction l generalizing b with
  | nil => simp [List.foldl]
  | cons h t ih =>
    simp only [List.foldl]
    rw [ih (b ++ h), ih ("" ++ h), String.empty_append, String.append_assoc]

theorem join_cons (s : String) (l : List String) :
    String.join (s :: l) = s ++ String.join l := by
  show List.foldl (fun r t => r ++ t) ("" ++ s) l = _
  rw [String.empty_append, foldl_append_init l s]
  rfl

theorem foldl_append_join {α : Type} (f : α → String) (l : List α) (b : String) :
    l.foldl (fun acc x => acc ++ f x) b = b ++ String.join (l.map f) := by
  induction l generalizing b with
  | nil => simp [String.join]
  | cons h t ih =>
    show List.foldl (fun acc x => acc ++ f x) (b ++ f h) t = _
    rw [ih (b ++ f h), List.map, join_cons, String.append_assoc]

/-- The backend-call section of the handler stub (scaffold.py lines
173-180): the call line, with the joined output names as assignment target
exactly when the filtered output name list is nonempty, then one keyword
argument line per non-excluded input, then the closing parenthesis. -/
def backendCallText (service operation : String)
    (inputs outputs : List (String × PyShape)) : String :=
  (if outputNames outputs ≠ [] then
    "    " ++ String.intercalate "," (outputNames outputs) ++ " = self." ++ service ++
      "_backend." ++ operation ++ "(\n"
  else
    "    self." ++ service ++ "_backend." ++ operation ++ "(\n") ++
  String.join ((inputNames inputs).map (fun n => "        " ++ n ++ "=" ++ n ++ ",\n")) ++
  "    )\n"

/-- The protocol-dependent tail of the handler stub (scaffold.py lines
181-188): the template render for the query protocol, the JSON dump with
its placeholder comment for the json protocol, nothing otherwise. -/
def protocolTail (operation protocol : String)
    (outputs : List (String × PyShape)) : String :=
  if protocol = "query" then
    "    template = self.response_template(" ++ pyUpper operation ++ "_TEMPLATE)\n" ++
      "    return template.render(" ++
      String.intercalate "," ((outputNames outputs).map (fun n => n ++ "=" ++ n)) ++ ")\n"
  else if protocol = "json" then
    "    # TODO: adjust reponse\n" ++ "    return json.dumps(" ++
      String.intercalate "," ((outputNames outputs).map (fun n => n ++ "=" ++ n)) ++ ")\n"
  else ""

/-- Counterexample to claim C3.  The extraction loop of
`get_function_in_responses` iterates over all input fields, not only the
non-excluded ones: for an operation whose sole input is the excluded
field `Marker` (or `PageSize`), the generated body does contain an
extraction statement for it, contradicting the claim that excluded fields
get no extraction statement. -/
theorem C3_counterexample :
    strContains
      (get_function_in_responses "svc" "op" "query" [("Marker", PyShape.stringShape)] [])
      "    marker = self._get_param(\"Marker\")\n" = true ∧
    strContains
      (get_function_in_responses "svc" "op" "query"
        [("PageSize", PyShape.scalarShape "integer")] [])
      "    page_size = _get_int_param(\"PageSize\")\n" = true :=
  ⟨rfl, rfl⟩

theorem handler_stub_decomposition (service operation protocol : String)
    (inputs outputs : List (String × PyShape)) :
    get_function_in_responses service operation protocol inputs outputs =
      ("def " ++ operation ++ "(self):\n") ++ String.join (inputs.map extractionLine) ++
      (backendCallText service operation inputs outputs ++
        protocolTail operation protocol outputs) := by
  unfold get_function_in_responses backendCallText protocolTail
  dsimp only
  rw [foldl_append_join extractionLine inputs,
    foldl_append_join (fun n => "        " ++ n ++ "=" ++ n ++ ",\n") (inputNames inputs)]
  by_cases hq : protocol = "query"
  · simp [hq, String.ext_iff, String.data_append, List.append_assoc]
  · by_cases hj : protocol = "json" <;>
      simp [hq, hj, String.ext_iff, String.data_append, List.append_assoc]

/-- Claim C3 as amended.  For every operation, `get_function_in_responses`
emits exactly one extraction statement per input field — including the
fields of the exclusion list `{Marker, PageSize}`, which are only omitted
from the backend-call keyword arguments — in input order, where an
integer-kind field uses the integer-parsing accessor, a list-kind field
uses the repeated-prefix accessor keyed by `<WireName>.member`, and every
other field uses the generic single-value accessor keyed by the wire name
(see `extractionLine`); the rest of the body is the backend call and the
protocol tail. -/
theorem C3_extraction_body (service operation protocol : String)
    (inputs outputs : List (String × PyShape)) :
    get_function_in_responses service operation protocol inputs outputs =
      ("def " ++ operation ++ "(self):\n") ++ String.join (inputs.map extractionLine) ++
      (backendCallText service operation inputs outputs ++
        protocolTail operation protocol outputs) :=
  handler_stub_decomposition service operation protocol inputs outputs

/-- Claim C10.  For every operation whose output member set, after the
continuation-marker exclusion, is empty, the handler stub's backend call
is a bare statement with no assignment target, and under the query
protocol the template render call has an empty argument list. -/
theorem C10_empty_outputs (service operation : String)
    (inputs outputs : List (String × PyShape)) (h : outputNames outputs = []) :
    get_function_in_responses service operation "query" inputs outputs =
      ("def " ++ operation ++ "(self):\n") ++ String.join (inputs.map extractionLine) ++
      ("    self." ++ service ++ "_backend." ++ operation ++ "(\n") ++
      String.join ((inputNames inputs).map (fun n => "        " ++ n ++ "=" ++ n ++ ",\n")) ++
      "    )\n" ++
      ("    template = self.response_template(" ++ pyUpper operation ++ "_TEMPLATE)\n") ++
      "    return template.render()\n" := by
  rw [handler_stub_decomposition]
  unfold backendCallText protocolTail
  rw [h]
  simp [String.ext_iff, String.data_append, List.append_assoc, String.intercalate]

/-- Witness for claim C10 at a concrete operation with one input and no
outputs. -/
theorem C10_empty_outputs_witness :
    get_function_in_responses "svc" "op" "query" [("Name", PyShape.stringShape)] [] =
      ("def " ++ "op" ++ "(self):\n") ++
      String.join ([("Name", PyShape.stringShape)].map extractionLine) ++
      ("    self." ++ "svc" ++ "_backend." ++ "op" ++ "(\n") ++
      String.join ((inputNames [("Name", PyShape.stringShape)]).map
        (fun n => "        " ++ n ++ "=" ++ n ++ ",\n")) ++
      "    )\n" ++
      ("    template = self.response_template(" ++ pyUpper "op" ++ "_TEMPLATE)\n") ++
      "    return template.render()\n" :=
  C10_empty_outputs "svc" "op" [("Name", PyShape.stringShape)] [] rfl

mutual

theorem subtree_rl_mono (name : String) (shape : PyShape) (rl : List RLEntry)
    (np : List String) :
    ∃ d, (_get_subtree name shape rl np).1 = rl ++ d := by
  match shape with
  | .stringShape => exact ⟨[], by simp [_get_subtree]⟩
  | .scalarShape t => exact ⟨[], by simp [_get_subtree]⟩
  | .mapShape k v => exact ⟨[], by simp [_get_subtree]⟩
  | .structureShape ms => exact ⟨[], by simp [_get_subtree]⟩
  | .listShape (.structureShape ms) =>
    obtain ⟨d, hd⟩ := subtree_fields_rl_mono ms (rl ++ [(name, np)])
      (np ++ [singularize (pyLower name)])
    refine ⟨(name, np) :: d, ?_⟩
    simp only [_get_subtree]
    cases hms : _get_subtree_fields ms (rl ++ [(name, np)])
        (np ++ [singularize (pyLower name)]) with
    | mk rl2 r =>
      rw [hms] at hd
      cases r <;> simpa using hd
  | .listShape .stringShape => exact ⟨[(name, np)], by simp [_get_subtree]⟩
  | .listShape (.scalarShape t) => exact ⟨[(name, np)], by simp [_get_subtree]⟩
  | .listShape (.listShape m) => exact ⟨[(name, np)], by simp [_get_subtree]⟩
  | .listShape (.mapShape k v) => exact ⟨[(name, np)], by simp [_get_subtree]⟩

theorem subtree_fields_rl_mono (ms : List (String × PyShape)) (rl : List RLEntry)
    (np : List String) :
    ∃ d, (_get_subtree_fields ms rl np).1 = rl ++ d := by
  match ms with
  | [] => exact ⟨[], by simp [_get_subtree_fields]⟩
  | (n, s) :: rest =>
    obtain ⟨d1, hd1⟩ := subtree_rl_mono n s rl np
    simp only [_get_subtree_fields]
    cases hs : _get_subtree n s rl np with
    | mk rl1 r1 =>
      rw [hs] at hd1
      cases r1 with
      | error e => exact ⟨d1, hd1⟩
      | ok e =>
        obtain ⟨d2, hd2⟩ := subtree_fields_rl_mono rest rl1 np
        cases hrest : _get_subtree_fields rest rl1 np with
        | mk rl2 r2 =>
          rw [hrest] at hd2
          cases r2 <;> simp_all [List.append_assoc]

end

theorem subtree_list_head (name : String) (inner : PyShape) (rl : List RLEntry)
    (np : List String) :
    ∃ d, (_get_subtree name (.listShape inner) rl np).1 = rl ++ (name, np) :: d := by
  match inner with
  | .structureShape ms =>
    obtain ⟨d, hd⟩ := subtree_fields_rl_mono ms (rl ++ [(name, np)])
      (np ++ [singularize (pyLower name)])
    refine ⟨d, ?_⟩
    simp only [_get_subtree]
    cases hms : _get_subtree_fields ms (rl ++ [(name, np)])
        (np ++ [singularize (pyLower name)]) with
    | mk rl2 r =>
      rw [hms] at hd
      cases r <;> simpa using hd
  | .stringShape => exact ⟨[], by simp [_get_subtree]⟩
  | .scalarShape t => exact ⟨[], by simp [_get_subtree]⟩
  | .listShape m => exact ⟨[], by simp [_get_subtree]⟩
  | .mapShape k v => exact ⟨[], by simp [_get_subtree]⟩

theorem fields_cons_fst (n : String) (sh : PyShape) (ms : List (String × PyShape))
    (rl : List RLEntry) (np : List String) :
    (_get_subtree_fields ((n, sh) :: ms) rl np).1 =
      (match _get_subtree n sh rl np with
       | (rl1, .ok _) => (_get_subtree_fields ms rl1 np).1
       | (rl1, .error _) => rl1) := by
  simp only [_get_subtree_fields]
  cases h : _get_subtree n sh rl np with
  | mk rl1 r =>
    cases r with
    | ok e =>
      dsimp only
      cases h2 : _get_subtree_fields ms rl1 np with
      | mk rl2 r2 => cases r2 <;> rfl
    | error e => rfl

theorem fields_append_split (ms1 ms2 : List (String × PyShape)) (rl rl1 : List RLEntry)
    (np : List String) (es : List Elem)
    (h : _get_subtree_fields ms1 rl np = (rl1, .ok es)) :
    (_get_subtree_fields (ms1 ++ ms2) rl np).1 = (_get_subtree_fields ms2 rl1 np).1 := by
  induction ms1 generalizing rl es with
  | nil =>
    simp only [_get_subtree_fields, Prod.mk.injEq] at h
    rw [List.nil_append, h.1]
  | cons p rest ih =>
    obtain ⟨n, sh⟩ := p
    rw [List.cons_append, fields_cons_fst]
    cases hs : _get_subtree n sh rl np with
    | mk rla r1 =>
      simp only [_get_subtree_fields] at h
      rw [hs] at h
      cases r1 with
      | error e => simp at h
      | ok e =>
        dsimp only at h ⊢
        cases hrest : _get_subtree_fields rest rla np with
        | mk rl2 r2 =>
          rw [hrest] at h
          cases r2 with
          | error e2 => simp at h
          | ok es2 =>
            dsimp only at h
            simp only [Prod.mk.injEq, Except.ok.injEq] at h
            obtain ⟨h1, h2⟩ := h
            subst h1
            exact ih rla es2 hrest

/-- Claim C5.  For every output shape in which a list field `Inner` is
nested (at any position) inside the member structure of a top-level list
field `Outer`, provided the member fields before `Inner` build without
error, the Replace List entry recorded for `Inner` carries the Name
Context `["outer"]` — the singularized, lowercased outer field name — and
the iteration source the loop annotator computes for that entry is
`outer.inner`, not `inner`. -/
theorem C5_nested_list_name_context (ms1 ms2 : List (String × PyShape)) (inner : PyShape)
    (h : ∃ rl1 es, _get_subtree_fields ms1 [("Outer", [])] ["outer"] = (rl1, .ok es)) :
    ("Inner", ["outer"]) ∈ (_get_subtree "Outer"
        (.listShape (.structureShape (ms1 ++ ("Inner", PyShape.listShape inner) :: ms2)))
        [] []).1 ∧
    iterNameOf ("Inner", ["outer"]) = "outer.inner" := by
  obtain ⟨rl1, es, hms1⟩ := h
  refine ⟨?_, rfl⟩
  have htop : (_get_subtree "Outer"
      (.listShape (.structureShape (ms1 ++ ("Inner", PyShape.listShape inner) :: ms2)))
      [] []).1 =
      (_get_subtree_fields (ms1 ++ ("Inner", PyShape.listShape inner) :: ms2)
        [("Outer", [])] ["outer"]).1 := by
    show (match _get_subtree_fields (ms1 ++ ("Inner", PyShape.listShape inner) :: ms2)
        [("Outer", [])] ["outer"] with
      | (rl2, .ok children) => (rl2,
          Except.ok (Elem.mk "Outer" none [] [Elem.mk "member" none []
            children]))
      | (rl2, .error e) => ((rl2 : List RLEntry), (.error e : Except PyError Elem))).1 = _
    cases hms : _get_subtree_fields (ms1 ++ ("Inner", PyShape.listShape inner) :: ms2)
        [("Outer", [])] ["outer"] with
    | mk rl2 r => cases r <;> rfl
  rw [htop, fields_append_split ms1 _ _ rl1 _ es hms1, fields_cons_fst]
  cases hi : _get_subtree "Inner" (PyShape.listShape inner) rl1 ["outer"] with
  | mk rlI rI =>
    obtain ⟨d, hd⟩ := subtree_list_head "Inner" inner rl1 ["outer"]
    rw [hi] at hd
    dsimp only at hd
    cases rI with
    | ok e =>
      dsimp only
      obtain ⟨d2, hd2⟩ := subtree_fields_rl_mono ms2 rlI ["outer"]
      rw [hd2, hd]
      simp
    | error e =>
      dsimp only
      rw [hd]
      simp

/-- Witness for claim C5 at a concrete nested shape, with the side
condition discharged by evaluation. -/
theorem C5_nested_list_name_context_witness :
    ("Inner", ["outer"]) ∈ (_get_subtree "Outer"
        (.listShape (.structureShape ([] ++ ("Inner",
          PyShape.listShape (.structureShape [("Id", PyShape.stringShape)])) :: [])))
        [] []).1 ∧
    iterNameOf ("Inner", ["outer"]) = "outer.inner" :=
  C5_nested_list_name_context [] []
    (.structureShape [("Id", PyShape.stringShape)])
    ⟨[("Outer", [])], [], rfl⟩

theorem fields_all_scalar_ok (ms : List (String × PyShape)) (rl : List RLEntry)
    (np : List String)
    (h : ∀ p ∈ ms, p.2 = PyShape.stringShape ∨ ∃ t, p.2 = PyShape.scalarShape t) :
    ∃ rl2 es, _get_subtree_fields ms rl np = (rl2, .ok es) := by
  induction ms generalizing rl with
  | nil => exact ⟨rl, [], rfl⟩
  | cons p rest ih =>
    obtain ⟨n, s⟩ := p
    obtain ⟨rl2, es, hrest⟩ := ih rl (fun q hq => h q (List.mem_cons_of_mem _ hq))
    rcases h (n, s) (List.mem_cons_self _ _) with hs | ⟨t, hs⟩ <;>
      simp only at hs <;> subst hs <;>
      refine ⟨rl2, Elem.mk n (some (leafText n np)) [] [] :: es, ?_⟩ <;>
      simp only [_get_subtree_fields, _get_subtree] <;> rw [hrest]

/-- Counterexample to claim C9.  A field whose kind is `structure` — inside
the claim's supported set {scalar, integer, list, structure} — makes
`_get_subtree` raise the Unsupported-Shape `ValueError`: the code only
accepts the classes `StringShape`, `Shape` and `ListShape`, and
`StructureShape` falls through to the `raise` statement. -/
theorem C9_counterexample :
    (_get_subtree "Wrapped" (.structureShape [("Name", PyShape.stringShape)]) [] []).2 =
      .error (.valueError "Not supported Shape") := rfl

/-- Claim C9 as amended.  `_get_subtree` raises the Unsupported-Shape
condition exactly when it encounters a field whose shape class is outside
{`StringShape`, `Shape`, `ListShape`}: scalar and integer fields never
raise it, a list field never raises it at its own node (shown here for a
list of scalars), while a structure-kind field — despite `structure`
being in the claim's supported set — and a map-kind field both raise
`ValueError('Not supported Shape')`, aborting before any output text is
produced. -/
theorem C9_unsupported_shape_amended (name : String) (rl : List RLEntry)
    (np : List String) :
    (_get_subtree name PyShape.stringShape rl np).2.isOk = true ∧
    (∀ t, (_get_subtree name (PyShape.scalarShape t) rl np).2.isOk = true) ∧
    (∀ ms, (_get_subtree name (PyShape.structureShape ms) rl np).2 =
      .error (.valueError "Not supported Shape")) ∧
    (∀ k v, (_get_subtree name (PyShape.mapShape k v) rl np).2 =
      .error (.valueError "Not supported Shape")) ∧
    (∀ ms, (∀ p ∈ ms, p.2 = PyShape.stringShape ∨ ∃ t, p.2 = PyShape.scalarShape t) →
      (_get_subtree name (PyShape.listShape (PyShape.structureShape ms)) rl np).2.isOk
        = true) := by
  refine ⟨rfl, fun t => rfl, fun ms => rfl, fun k v => rfl, fun ms h => ?_⟩
  obtain ⟨rl2, es, hms⟩ := fields_all_scalar_ok ms (rl ++ [(name, np)])
    (np ++ [singularize (pyLower name)]) h
  simp only [_get_subtree]
  rw [hms]
  rfl

/-- Witness for claim C9's amended theorem: its conjuncts applied at
concrete shapes, with the all-scalar side condition discharged at a
one-field member structure. -/
theorem C9_unsupported_shape_amended_witness :
    (_get_subtree "F" (PyShape.listShape (PyShape.structureShape
      [("A", PyShape.stringShape)])) [] []).2.isOk = true ∧
    (_get_subtree "F" (PyShape.structureShape []) [] []).2 =
      .error (.valueError "Not supported Shape") :=
  ⟨(C9_unsupported_shape_amended "F" [] []).2.2.2.2 [("A", PyShape.stringShape)]
    (by
      intro p hp
      rw [List.mem_singleton] at hp
      subst hp
      exact Or.inl rfl),
   (C9_unsupported_shape_amended "F" [] []).2.2.1 []⟩

theorem toNat_ofNat_lt (m : Nat) (h : m < 55296) : (Char.ofNat m).toNat = m := by
  rw [Char.ofNat, dif_pos (Or.inl h)]
  rfl

theorem upper_not_lower {c : Char} (h : isUpperCh c = true) : isLowerCh c = false := by
  simp only [isUpperCh, Bool.and_eq_true, decide_eq_true_eq] at h
  simp only [isLowerCh, Bool.and_eq_false_iff, decide_eq_false_iff_not]
  omega

theorem lower_not_upper {c : Char} (h : isLowerCh c = true) : isUpperCh c = false := by
  simp only [isLowerCh, Bool.and_eq_true, decide_eq_true_eq] at h
  simp only [isUpperCh, Bool.and_eq_false_iff, decide_eq_false_iff_not]
  omega

theorem upper_not_digit {c : Char} (h : isUpperCh c = true) : isDigitCh c = false := by
  simp only [isUpperCh, Bool.and_eq_true, decide_eq_true_eq] at h
  simp only [isDigitCh, Bool.and_eq_false_iff, decide_eq_false_iff_not]
  omega

theorem pyLowerChar_of_lower {c : Char} (h : isLowerCh c = true) : pyLowerChar c = c := by
  simp only [isLowerCh, Bool.and_eq_true, decide_eq_true_eq] at h
  simp only [pyLowerChar, ite_eq_right_iff]
  omega

theorem lower_ne_underscore {c : Char} (h : isLowerCh c = true) : c ≠ '_' := by
  intro he
  subst he
  simp [isLowerCh] at h

theorem pyLowerChar_of_upper {c : Char} (h : isUpperCh c = true) :
    isLowerCh (pyLowerChar c) = true ∧ pyUpperChar (pyLowerChar c) = c := by
  have hn : 65 ≤ c.toNat ∧ c.toNat ≤ 90 := by
    simpa [isUpperCh, Bool.and_eq_true, decide_eq_true_eq] using h
  have hlt : c.toNat + 32 < 55296 := by omega
  have ht : (Char.ofNat (c.toNat + 32)).toNat = c.toNat + 32 := toNat_ofNat_lt _ hlt
  have hlc : pyLowerChar c = Char.ofNat (c.toNat + 32) := by
    simp [pyLowerChar, hn.1, hn.2]
  constructor
  · simp only [isLowerCh, hlc, ht, Bool.and_eq_true, decide_eq_true_eq]
    omega
  · rw [hlc, pyUpperChar, if_pos (by rw [ht]; omega), ht]
    have : c.toNat + 32 - 32 = c.toNat := by omega
    rw [this, Char.ofNat_toNat]

theorem snakeSub1F_fuel (f1 : Nat) : ∀ (f2 : Nat) (l : List Char),
    l.length ≤ f1 → l.length ≤ f2 → snakeSub1F f1 l = snakeSub1F f2 l := by
  induction f1 with
  | zero =>
    intro f2 l h1 h2
    match l with
    | [] => cases f2 <;> rfl
    | [c] => cases f2 <;> rfl
    | c1 :: c2 :: rest => simp at h1
  | succ f1' ih =>
    intro f2 l h1 h2
    match l with
    | [] => cases f2 <;> rfl
    | [c] => cases f2 <;> rfl
    | c1 :: c2 :: rest =>
      simp only [List.length_cons] at h1 h2
      match f2 with
      | 0 => omega
      | f2' + 1 =>
        simp only [snakeSub1F]
        have hdw := length_dropWhile_le isLowerCh rest
        split
        · rw [ih f2' (rest.dropWhile isLowerCh) (by omega) (by omega)]
        · rw [ih f2' (c2 :: rest) (by simp; omega) (by simp; omega)]

theorem snakeSub1_cons2 (c1 c2 : Char) (rest : List Char) :
    snakeSub1 (c1 :: c2 :: rest) =
      if sub1MatchHere c2 rest then
        c1 :: '_' :: c2 :: rest.takeWhile isLowerCh ++
          snakeSub1 (rest.dropWhile isLowerCh)
      else
        c1 :: snakeSub1 (c2 :: rest) := by
  show snakeSub1F (c1 :: c2 :: rest).length (c1 :: c2 :: rest) = _
  have hdw := length_dropWhile_le isLowerCh rest
  simp only [List.length_cons, snakeSub1F]
  split
  · rw [snakeSub1F_fuel (rest.length + 1) (rest.dropWhile isLowerCh).length
      (rest.dropWhile isLowerCh) (by omega) (by omega)]
    rfl
  · rw [snakeSub1F_fuel (rest.length + 1) (c2 :: rest).length (c2 :: rest)
      (by simp) (by simp)]
    rfl

theorem snakeSub2F_fuel (f1 : Nat) : ∀ (f2 : Nat) (l : List Char),
    l.length ≤ f1 → l.length ≤ f2 → snakeSub2F f1 l = snakeSub2F f2 l := by
  induction f1 with
  | zero =>
    intro f2 l h1 h2
    match l with
    | [] => cases f2 <;> rfl
    | [c] => cases f2 <;> rfl
    | c1 :: c2 :: rest => simp at h1
  | succ f1' ih =>
    intro f2 l h1 h2
    match l with
    | [] => cases f2 <;> rfl
    | [c] => cases f2 <;> rfl
    | c1 :: c2 :: rest =>
      simp only [List.length_cons] at h1 h2
      match f2 with
      | 0 => omega
      | f2' + 1 =>
        simp only [snakeSub2F]
        split
        · rw [ih f2' rest (by omega) (by omega)]
        · rw [ih f2' (c2 :: rest) (by simp; omega) (by simp; omega)]

theorem snakeSub2_cons2 (c1 c2 : Char) (rest : List Char) :
    snakeSub2 (c1 :: c2 :: rest) =
      if (isLowerCh c1 || isDigitCh c1) && isUpperCh c2 then
        c1 :: '_' :: c2 :: snakeSub2 rest
      else
        c1 :: snakeSub2 (c2 :: rest) := by
  show snakeSub2F (c1 :: c2 :: rest).length (c1 :: c2 :: rest) = _
  simp only [List.length_cons, snakeSub2F]
  split
  · rw [snakeSub2F_fuel (rest.length + 1) rest.length rest (by omega) (by omega)]
    rfl
  · rw [snakeSub2F_fuel (rest.length + 1) (c2 :: rest).length (c2 :: rest)
      (by simp) (by simp)]
    rfl

theorem takeDropWhile_append_all (p : Char → Bool) (l r : List Char)
    (hl : ∀ c ∈ l, p c = true)
    (hr : r = [] ∨ ∃ y ys, r = y :: ys ∧ p y = false) :
    (l ++ r).takeWhile p = l ∧ (l ++ r).dropWhile p = r := by
  induction l with
  | nil =>
    rcases hr with hr | ⟨y, ys, hr, hy⟩
    · subst hr
      exact ⟨rfl, rfl⟩
    · subst hr
      simp [List.takeWhile, List.dropWhile, hy]
  | cons c t ih =>
    have hc : p c = true := hl c (List.mem_cons_self _ _)
    have := ih (fun x hx => hl x (List.mem_cons_of_mem _ hx))
    simp [List.takeWhile, List.dropWhile, hc, this.1, this.2]

theorem snakeSub1_all_lower (l : List Char) (h : ∀ c ∈ l, isLowerCh c = true) :
    snakeSub1 l = l := by
  induction l with
  | nil => rfl
  | cons c1 t ih =>
    match t with
    | [] => rfl
    | c2 :: rest =>
      rw [snakeSub1_cons2, if_neg]
      · rw [ih (fun x hx => h x (List.mem_cons_of_mem _ hx))]
      · have h2 : isLowerCh c2 = true :=
          h c2 (List.mem_cons_of_mem _ (List.mem_cons_self _ _))
        simp [sub1MatchHere, lower_not_upper h2]

theorem sub1_scan (u m : Char) (ms rest2 : List Char) :
    ∀ (xs : List Char) (x : Char), (∀ c ∈ xs, isLowerCh c = true) →
    isUpperCh u = true → isLowerCh m = true → (∀ c ∈ ms, isLowerCh c = true) →
    (rest2 = [] ∨ ∃ y ys, rest2 = y :: ys ∧ isLowerCh y = false) →
    snakeSub1 (x :: (xs ++ u :: m :: ms ++ rest2)) =
      x :: (xs ++ '_' :: u :: m :: ms ++ snakeSub1 rest2) := by
  intro xs
  induction xs with
  | nil =>
    intro x _ hu hm hms h2
    have htd := takeDropWhile_append_all isLowerCh (m :: ms) rest2
      (by
        intro c hc
        rcases List.mem_cons.mp hc with hc | hc
        · exact hc ▸ hm
        · exact hms c hc) h2
    simp only [List.cons_append, List.nil_append] at htd ⊢
    rw [snakeSub1_cons2, if_pos (by simp [sub1MatchHere, hu, hm])]
    rw [htd.1, htd.2]
    simp [List.cons_append]
  | cons x2 xs' ih =>
    intro x hxs hu hm hms h2
    have hx2 : isLowerCh x2 = true := hxs x2 (List.mem_cons_self _ _)
    have h1 := ih x2 (fun c hc => hxs c (List.mem_cons_of_mem _ hc)) hu hm hms h2
    simp only [List.cons_append] at h1 ⊢
    rw [snakeSub1_cons2, if_neg (by simp [sub1MatchHere, lower_not_upper hx2]), h1]

/-- A capitalized word in the sense needed for the round-trip: one ASCII
uppercase letter followed by a nonempty run of ASCII lowercase letters. -/
def goodWord (w : List Char) : Bool :=
  match w with
  | u :: ls => isUpperCh u && !ls.isEmpty && ls.all isLowerCh
  | [] => false

/-- The shape of a word sequence after the first `to_snake_case`
substitution: the regex catches every other word boundary (its match
consumes the following word's lowercase run), so underscores appear after
words 1, 3, 5, ... only. -/
def altSep : List (List Char) → List Char
  | [] => []
  | [w] => w
  | w1 :: w2 :: rest => w1 ++ '_' :: (w2 ++ altSep rest)

theorem goodWord_parts {w : List Char} (h : goodWord w = true) :
    ∃ u m ms, w = u :: m :: ms ∧ isUpperCh u = true ∧ isLowerCh m = true ∧
      ∀ c ∈ ms, isLowerCh c = true := by
  match w with
  | [] => simp [goodWord] at h
  | [u] => simp [goodWord] at h
  | u :: m :: ms =>
    simp only [goodWord, Bool.and_eq_true, List.all_eq_true] at h
    exact ⟨u, m, ms, rfl, h.1.1, h.2 m (List.mem_cons_self _ _),
      fun c hc => h.2 c (List.mem_cons_of_mem _ hc)⟩

theorem flatten_head_not_lower (ws : List (List Char))
    (h : ∀ w ∈ ws, goodWord w = true) :
    ws.flatten = [] ∨ ∃ y ys, ws.flatten = y :: ys ∧ isLowerCh y = false := by
  match ws with
  | [] => exact Or.inl rfl
  | w :: rest =>
    obtain ⟨u, m, ms, hw, hu, _, _⟩ := goodWord_parts (h w (List.mem_cons_self _ _))
    subst hw
    exact Or.inr ⟨u, m :: ms ++ rest.flatten, by simp, upper_not_lower hu⟩

theorem sub1_words : ∀ ws : List (List Char), (∀ w ∈ ws, goodWord w = true) →
    snakeSub1 ws.flatten = altSep ws := by
  intro ws
  induction ws using altSep.induct with
  | case1 => intro _; rfl
  | case2 w =>
    intro h
    obtain ⟨u, m, ms, hw, hu, hm, hms⟩ := goodWord_parts (h w (List.mem_cons_self _ _))
    subst hw
    simp only [List.flatten_cons, List.flatten_nil, List.append_nil, altSep]
    rw [snakeSub1_cons2, if_neg (by simp [sub1MatchHere, lower_not_upper hm])]
    rw [snakeSub1_all_lower (m :: ms) (by
      intro c hc
      rcases List.mem_cons.mp hc with hc | hc
      · exact hc ▸ hm
      · exact hms c hc)]
  | case3 w1 w2 rest ih =>
    intro h
    obtain ⟨u1, a, as, hw1, hu1, ha, has⟩ :=
      goodWord_parts (h w1 (List.mem_cons_self _ _))
    obtain ⟨u2, m, ms, hw2, hu2, hm, hms⟩ :=
      goodWord_parts (h w2 (List.mem_cons_of_mem _ (List.mem_cons_self _ _)))
    have hrest : ∀ w ∈ rest, goodWord w = true := fun w hw =>
      h w (List.mem_cons_of_mem _ (List.mem_cons_of_mem _ hw))
    have ihr := ih hrest
    subst hw1 hw2
    have hscan := sub1_scan u2 m ms rest.flatten (a :: as) u1
      (by
        intro c hc
        rcases List.mem_cons.mp hc with hc | hc
        · exact hc ▸ ha
        · exact has c hc)
      hu2 hm hms (flatten_head_not_lower rest hrest)
    simp only [List.flatten_cons, List.cons_append, List.append_assoc, altSep]
      at hscan ⊢
    rw [hscan, ihr]

/-- A pair of adjacent characters at which the second `to_snake_case`
regex does not match. -/
def sub2SafePair (a b : Char) : Prop :=
  ((isLowerCh a || isDigitCh a) && isUpperCh b) = false

theorem sub2_scan : ∀ (cur : List Char), List.Chain' sub2SafePair cur →
    ∀ (next : List Char),
    (∀ a ∈ cur.getLast?, ∀ y ∈ next.head?, sub2SafePair a y) →
    snakeSub2 (cur ++ next) = cur ++ snakeSub2 next := by
  intro cur
  induction cur with
  | nil => intro _ next _; rfl
  | cons c t ih =>
    intro hch next hb
    match t with
    | [] =>
      match next with
      | [] => rfl
      | y :: ys =>
        have hcy : sub2SafePair c y := hb c rfl y rfl
        simp only [List.cons_append, List.nil_append]
        rw [snakeSub2_cons2, if_neg (by
          simp only [sub2SafePair] at hcy
          simp [hcy])]
    | c2 :: t2 =>
      have hcc2 : sub2SafePair c c2 := (List.chain'_cons.mp hch).1
      have := ih (List.chain'_cons.mp hch).2 next (by
        intro a ha y hy
        exact hb a ha y hy)
      simp only [List.cons_append] at this ⊢
      rw [snakeSub2_cons2, if_neg (by
        simp only [sub2SafePair] at hcc2
        simp [hcc2]), this]

/-- The underscore-prefixed concatenation of the remaining blocks. -/
def tailJoin : List (List Char) → List Char
  | [] => []
  | s :: rest => '_' :: (s ++ tailJoin rest)

/-- A block as fed to the second substitution: starts with an uppercase
letter, contains no adjacent pair the second regex matches, and ends with
a lowercase letter. -/
def goodBlock (s : List Char) : Prop :=
  (∃ u body, s = u :: body ∧ isUpperCh u = true) ∧
  List.Chain' sub2SafePair s ∧
  (∃ s2 l, s = s2 ++ [l] ∧ isLowerCh l = true)

theorem sub2_mid : ∀ (segs : List (List Char)) (cur : List Char),
    List.Chain' sub2SafePair cur →
    (∃ cur2 l, cur = cur2 ++ [l] ∧ isLowerCh l = true) →
    (∀ s ∈ segs, goodBlock s) →
    snakeSub2 (cur ++ segs.flatten) = cur ++ tailJoin segs := by
  intro segs
  induction segs with
  | nil =>
    intro cur hch _ _
    rw [List.flatten_nil, tailJoin, sub2_scan cur hch [] (by simp)]
    rfl
  | cons s rest ih =>
    intro cur hch ⟨cur2, l, hcur, hl⟩ hsegs
    obtain ⟨⟨u, body, hs, hu⟩, hsch, ⟨s2, l2, hs2, hl2⟩⟩ :=
      hsegs s (List.mem_cons_self _ _)
    have hbody : ∃ b2, body = b2 ++ [l2] := by
      match s2, hs2 with
      | [], h2 =>
        exfalso
        rw [hs] at h2
        simp only [List.nil_append] at h2
        obtain ⟨he, hb⟩ := List.cons.injEq .. ▸ h2
        subst he
        rw [upper_not_lower ?_] at hl2
        · exact Bool.false_ne_true hl2
        · exact hu
      | x :: s2', h2 =>
        rw [hs] at h2
        simp only [List.cons_append] at h2
        obtain ⟨he, hb⟩ := List.cons.injEq .. ▸ h2
        exact ⟨s2', hb⟩
    obtain ⟨b2, hb2⟩ := hbody
    subst hcur hs
    have hcur2ch : List.Chain' sub2SafePair cur2 :=
      (List.chain'_append.mp hch).1
    have hbound : ∀ a ∈ cur2.getLast?, ∀ y ∈ (l :: u :: (body ++ rest.flatten)).head?,
        sub2SafePair a y := by
      intro a ha y hy
      simp only [List.head?_cons, Option.mem_def, Option.some.injEq] at hy
      subst hy
      exact (List.chain'_append.mp hch).2.2 a ha l rfl
    have step1 : snakeSub2 ((cur2 ++ [l]) ++ ((u :: body) :: rest).flatten) =
        cur2 ++ snakeSub2 (l :: u :: (body ++ rest.flatten)) := by
      rw [List.flatten_cons]
      simp only [List.append_assoc, List.cons_append, List.nil_append]
      rw [sub2_scan cur2 hcur2ch _ hbound]
    rw [step1, snakeSub2_cons2, if_pos (by simp [hl, hu])]
    have hbch : List.Chain' sub2SafePair body :=
      (List.chain'_cons'.mp hsch).2
    have := ih body hbch ⟨b2, l2, hb2, hl2⟩
      (fun q hq => hsegs q (List.mem_cons_of_mem _ hq))
    rw [this]
    simp [tailJoin, List.append_assoc]

/-- The blocks the first substitution leaves: words paired two at a time,
each pair already separated internally by an underscore. -/
def pairBlocks : List (List Char) → List (List Char)
  | [] => []
  | [w] => [w]
  | w1 :: w2 :: rest => (w1 ++ '_' :: w2) :: pairBlocks rest

/-- The fully underscore-separated concatenation of all words, the shape
`to_snake_case` produces before lowercasing. -/
def fullSep : List (List Char) → List Char
  | [] => []
  | w :: rest => w ++ tailJoin rest

theorem altSep_eq_pairBlocks : ∀ ws : List (List Char),
    altSep ws = (pairBlocks ws).flatten := by
  intro ws
  induction ws using pairBlocks.induct with
  | case1 => rfl
  | case2 w => simp [altSep, pairBlocks]
  | case3 w1 w2 rest ih =>
    simp [altSep, pairBlocks, ih, List.append_assoc]

theorem tailJoin_pairBlocks : ∀ ws : List (List Char),
    tailJoin (pairBlocks ws) = tailJoin ws := by
  intro ws
  induction ws using pairBlocks.induct with
  | case1 => rfl
  | case2 w => rfl
  | case3 w1 w2 rest ih =>
    simp [pairBlocks, tailJoin, ih, List.append_assoc]

theorem chain'_of_tail_lower : ∀ (xs : List Char) (x : Char),
    (∀ c ∈ xs, isLowerCh c = true) → List.Chain' sub2SafePair (x :: xs) := by
  intro xs
  induction xs with
  | nil => intro x _; simp
  | cons y ys ih =>
    intro x h
    rw [List.chain'_cons]
    refine ⟨?_, ih y (fun c hc => h c (List.mem_cons_of_mem _ hc))⟩
    have hy : isLowerCh y = true := h y (List.mem_cons_self _ _)
    simp [sub2SafePair, lower_not_upper hy]

theorem goodBlock_word {w : List Char} (h : goodWord w = true) : goodBlock w := by
  obtain ⟨u, m, ms, hw, hu, hm, hms⟩ := goodWord_parts h
  subst hw
  have hall : ∀ c ∈ m :: ms, isLowerCh c = true := by
    intro c hc
    rcases List.mem_cons.mp hc with hc | hc
    · exact hc ▸ hm
    · exact hms c hc
  refine ⟨⟨u, m :: ms, rfl, hu⟩, chain'_of_tail_lower (m :: ms) u hall, ?_⟩
  have hne : (m :: ms : List Char) ≠ [] := List.cons_ne_nil _ _
  refine ⟨u :: (m :: ms).dropLast, (m :: ms).getLast hne, ?_, ?_⟩
  · rw [List.cons_append]
    rw [List.dropLast_append_getLast hne]
  · exact hall _ (List.getLast_mem hne)

theorem goodBlock_pair {w1 w2 : List Char} (h1 : goodWord w1 = true)
    (h2 : goodWord w2 = true) : goodBlock (w1 ++ '_' :: w2) := by
  obtain ⟨u1, m1, ms1, hw1, hu1, hm1, hms1⟩ := goodWord_parts h1
  obtain ⟨⟨u2, b2, hs2, hu2⟩, hch2, ⟨s2, l2, hsl2, hl2⟩⟩ := goodBlock_word h2
  obtain ⟨⟨u1', b1, hs1, hu1'⟩, hch1, ⟨s1, l1, hsl1, hl1⟩⟩ := goodBlock_word h1
  refine ⟨?_, ?_, ?_⟩
  · subst hs1
    exact ⟨u1', b1 ++ '_' :: w2, by simp, hu1'⟩
  · rw [List.chain'_append]
    refine ⟨hch1, ?_, ?_⟩
    · rw [List.chain'_cons']
      refine ⟨?_, hch2⟩
      intro y hy
      subst hs2
      simp only [List.head?_cons, Option.mem_def, Option.some.injEq] at hy
      subst hy
      simp [sub2SafePair, isLowerCh, isDigitCh]
    · intro a _ y hy
      simp only [List.head?_cons, Option.mem_def, Option.some.injEq] at hy
      subst hy
      simp [sub2SafePair, isUpperCh]
  · subst hsl2
    exact ⟨w1 ++ '_' :: s2, l2, by simp [List.append_assoc], hl2⟩

theorem pairBlocks_good : ∀ ws : List (List Char), (∀ w ∈ ws, goodWord w = true) →
    ∀ s ∈ pairBlocks ws, goodBlock s := by
  intro ws
  induction ws using pairBlocks.induct with
  | case1 => intro _ s hs; simp [pairBlocks] at hs
  | case2 w =>
    intro h s hs
    rw [pairBlocks, List.mem_singleton] at hs
    subst hs
    exact goodBlock_word (h s (List.mem_cons_self _ _))
  | case3 w1 w2 rest ih =>
    intro h s hs
    rw [pairBlocks] at hs
    rcases List.mem_cons.mp hs with hs | hs
    · subst hs
      exact goodBlock_pair (h w1 (List.mem_cons_self _ _))
        (h w2 (List.mem_cons_of_mem _ (List.mem_cons_self _ _)))
    · exact ih (fun w hw => h w (List.mem_cons_of_mem _ (List.mem_cons_of_mem _ hw)))
        s hs

theorem sub2_altSep : ∀ ws : List (List Char), ws ≠ [] →
    (∀ w ∈ ws, goodWord w = true) → snakeSub2 (altSep ws) = fullSep ws := by
  intro ws hne h
  rw [altSep_eq_pairBlocks]
  match ws, hne with
  | [w], _ =>
    rw [pairBlocks]
    obtain ⟨_, hch, hend⟩ := goodBlock_word (h w (List.mem_cons_self _ _))
    have := sub2_mid [] w hch hend (by simp)
    simp only [List.flatten_nil, List.append_nil, tailJoin] at this
    simp only [List.flatten_cons, List.flatten_nil, List.append_nil]
    rw [this]
    simp [fullSep, tailJoin]
  | w1 :: w2 :: rest, _ =>
    rw [pairBlocks, List.flatten_cons]
    obtain ⟨_, hch, hend⟩ := goodBlock_pair (h w1 (List.mem_cons_self _ _))
      (h w2 (List.mem_cons_of_mem _ (List.mem_cons_self _ _)))
    rw [sub2_mid (pairBlocks rest) (w1 ++ '_' :: w2) hch hend
      (pairBlocks_good rest
        (fun w hw => h w (List.mem_cons_of_mem _ (List.mem_cons_of_mem _ hw)))),
      tailJoin_pairBlocks]
    simp [fullSep, tailJoin, List.append_assoc]

theorem map_lower_fullSep : ∀ ws : List (List Char),
    (fullSep ws).map pyLowerChar = fullSep (ws.map (List.map pyLowerChar)) := by
  have htj : ∀ l : List (List Char),
      (tailJoin l).map pyLowerChar = tailJoin (l.map (List.map pyLowerChar)) := by
    intro l
    induction l with
    | nil => rfl
    | cons s rest ih =>
      simp only [tailJoin, List.map_cons, List.map_append]
      rw [ih]
      rfl
  intro ws
  match ws with
  | [] => rfl
  | w :: rest =>
    simp only [fullSep, List.map_cons, List.map_append]
    rw [htj]

theorem split_no_sep (sep : Char) : ∀ p : List Char, (∀ c ∈ p, c ≠ sep) →
    pySplitChars sep p = [p] := by
  intro p
  induction p with
  | nil => intro _; rfl
  | cons c rest ih =>
    intro h
    rw [pySplitChars]
    rw [if_neg (h c (List.mem_cons_self _ _)), ih (fun x hx => h x (List.mem_cons_of_mem _ hx))]

theorem split_sep_mid (sep : Char) : ∀ (p q : List Char), (∀ c ∈ p, c ≠ sep) →
    pySplitChars sep (p ++ sep :: q) = p :: pySplitChars sep q := by
  intro p
  induction p with
  | nil =>
    intro q _
    simp [pySplitChars]
  | cons c rest ih =>
    intro q h
    simp only [List.cons_append, pySplitChars, List.append_eq]
    rw [if_neg (h c (List.mem_cons_self _ _)),
      ih q (fun x hx => h x (List.mem_cons_of_mem _ hx))]

theorem split_fullSep : ∀ (rest : List (List Char)) (w : List Char),
    (∀ c ∈ w, c ≠ '_') → (∀ p ∈ rest, ∀ c ∈ p, c ≠ '_') →
    pySplitChars '_' (w ++ tailJoin rest) = w :: rest := by
  intro rest
  induction rest with
  | nil =>
    intro w hw _
    rw [tailJoin, List.append_nil, split_no_sep '_' w hw]
  | cons s r ih =>
    intro w hw h
    rw [tailJoin, split_sep_mid '_' w (s ++ tailJoin r) hw]
    rw [ih s (h s (List.mem_cons_self _ _))
      (fun p hp => h p (List.mem_cons_of_mem _ hp))]

theorem map_lower_id : ∀ ls : List Char, (∀ c ∈ ls, isLowerCh c = true) →
    ls.map pyLowerChar = ls := by
  intro ls h
  induction ls with
  | nil => rfl
  | cons c rest ih =>
    simp only [List.map_cons]
    rw [pyLowerChar_of_lower (h c (List.mem_cons_self _ _)),
      ih (fun x hx => h x (List.mem_cons_of_mem _ hx))]

theorem titleGo_lower : ∀ ls : List Char, (∀ c ∈ ls, isLowerCh c = true) →
    pyTitleGo ls true = ls := by
  intro ls
  induction ls with
  | nil => intro _; rfl
  | cons c rest ih =>
    intro h
    have hc : isLowerCh c = true := h c (List.mem_cons_self _ _)
    simp only [pyTitleGo, hc, Bool.or_true, if_true]
    rw [pyLowerChar_of_lower hc, ih (fun x hx => h x (List.mem_cons_of_mem _ hx))]

theorem title_lower_word {w : List Char} (h : goodWord w = true) :
    pyTitle (w.map pyLowerChar) = w := by
  obtain ⟨u, m, ms, hw, hu, hm, hms⟩ := goodWord_parts h
  subst hw
  have hall : ∀ c ∈ m :: ms, isLowerCh c = true := by
    intro c hc
    rcases List.mem_cons.mp hc with hc | hc
    · exact hc ▸ hm
    · exact hms c hc
  obtain ⟨hlow, hup⟩ := pyLowerChar_of_upper hu
  simp only [List.map_cons, pyTitle]
  rw [map_lower_id ms (fun c hc => hall c (List.mem_cons_of_mem _ hc)),
    pyLowerChar_of_lower hm]
  simp only [pyTitleGo, hlow, Bool.or_true, if_true]
  rw [hup]
  have htail := titleGo_lower (m :: ms) hall
  simp only [pyTitleGo, hm, Bool.or_true, if_true, pyLowerChar_of_lower hm] at htail
  have hms2 : pyTitleGo ms true = ms := (List.cons.inj htail).2
  simp [hm, pyLowerChar_of_lower hm, hms2]

theorem lowered_word_no_underscore {w : List Char} (h : goodWord w = true) :
    ∀ c ∈ w.map pyLowerChar, c ≠ '_' := by
  obtain ⟨u, m, ms, hw, hu, hm, hms⟩ := goodWord_parts h
  subst hw
  intro c hc
  obtain ⟨a, ha, rfl⟩ := List.mem_map.mp hc
  rcases List.mem_cons.mp ha with ha | ha
  · subst ha
    exact lower_ne_underscore (pyLowerChar_of_upper hu).1
  · have hal : isLowerCh a = true := by
      rcases List.mem_cons.mp ha with ha | ha
      · exact ha ▸ hm
      · exact hms a ha
    rw [pyLowerChar_of_lower hal]
    exact lower_ne_underscore hal

theorem map_title_lower : ∀ ws : List (List Char),
    (∀ w ∈ ws, goodWord w = true) →
    ws.map (fun w => pyTitle (w.map pyLowerChar)) = ws := by
  intro ws
  induction ws with
  | nil => intro _; rfl
  | cons w rest ih =>
    intro h
    simp only [List.map_cons]
    rw [title_lower_word (h w (List.mem_cons_self _ _)),
      ih (fun x hx => h x (List.mem_cons_of_mem _ hx))]

/-- Claim C6 as amended.  The original claim — `toWireStyle(toCodeStyle x) = x`
for every identifier composed of capitalized words with no embedded digits —
fails on words without lowercase letters (see the counterexample); it holds
for every identifier that is a nonempty concatenation of words each
consisting of one ASCII uppercase letter followed by a nonempty run of ASCII
lowercase letters:
`to_upper_camel_case (to_snake_case x) = x` for all such `x`. -/
theorem C6_roundtrip_amended (ws : List (List Char)) (hne : ws ≠ [])
    (h : ∀ w ∈ ws, goodWord w = true) :
    to_upper_camel_case (to_snake_case ⟨ws.flatten⟩) = ⟨ws.flatten⟩ := by
  have h1 : to_snake_case ⟨ws.flatten⟩ = ⟨(fullSep ws).map pyLowerChar⟩ := by
    unfold to_snake_case
    rw [show (String.mk ws.flatten).data = ws.flatten from rfl,
      sub1_words ws h, sub2_altSep ws hne h]
  rw [h1]
  unfold to_upper_camel_case
  rw [show (String.mk ((fullSep ws).map pyLowerChar)).data =
    (fullSep ws).map pyLowerChar from rfl, map_lower_fullSep]
  match ws, hne, h with
  | w :: rest, _, h =>
    rw [List.map_cons,
      show fullSep (w.map pyLowerChar :: rest.map (List.map pyLowerChar)) =
        w.map pyLowerChar ++ tailJoin (rest.map (List.map pyLowerChar)) from rfl,
      split_fullSep (rest.map (List.map pyLowerChar)) (w.map pyLowerChar)
        (lowered_word_no_underscore (h w (List.mem_cons_self _ _)))
        (by
          intro p hp c hc
          obtain ⟨q, hq, rfl⟩ := List.mem_map.mp hp
          exact lowered_word_no_underscore
            (h q (List.mem_cons_of_mem _ hq)) c hc)]
    have hmt := map_title_lower (w :: rest) h
    simp only [List.map_cons] at hmt ⊢
    rw [show List.map pyTitle (List.map (List.map pyLowerChar) rest) =
      List.map (fun q => pyTitle (q.map pyLowerChar)) rest from by
        rw [List.map_map]; rfl]
    rw [(List.cons.inj hmt).1, (List.cons.inj hmt).2]

/-- Counterexample to claim C6.  The identifier `AB` is composed of the two
capitalized words `A` and `B` (their concatenation is shown explicitly) and
contains no digits, yet the round trip yields `Ab`, not `AB`: the snake-case
conversion has no boundary to split consecutive single capitals, so
`to_snake_case "AB" = "ab"` and title-casing cannot recover the second
capital. -/
theorem C6_counterexample :
    (["A".data, "B".data] : List (List Char)).flatten = "AB".data ∧
    to_snake_case "AB" = "ab" ∧
    to_upper_camel_case (to_snake_case "AB") = "Ab" ∧
    to_upper_camel_case (to_snake_case "AB") ≠ "AB" := by
  refine ⟨rfl, rfl, rfl, ?_⟩
  intro h
  exact absurd h (by decide)

/-- Witness for claim C6's amended theorem at the identifier
`BucketName = Bucket ++ Name`. -/
theorem C6_roundtrip_amended_witness :
    to_upper_camel_case (to_snake_case ⟨(["Bucket".data, "Name".data] :
      List (List Char)).flatten⟩) =
      ⟨(["Bucket".data, "Name".data] : List (List Char)).flatten⟩ :=
  C6_roundtrip_amended ["Bucket".data, "Name".data] (by decide)
    (by
      intro w hw
      rcases List.mem_cons.mp hw with hw | hw
      · subst hw; decide
      · rw [List.mem_singleton] at hw
        subst hw; decide)
